import Mathlib

/-!
# Verification of the `evttool` event-correlation engine

A shallow embedding of `src/evttool.js` (the current variant of the tool,
lines 1-811): the record normalizer (`objToEvent`), the span correlator
(`handleBegin` / `handleEnd` / `handleEvent`), the report generator
(`reportProcessRequest`, `powerOfTwoBuckets`, the median computation of
`outputReport`) and the timeline renderer (`outputTimeline`).

Modelling conventions:
* JavaScript objects used as string-keyed maps become association lists with
  insertion-order update semantics (`jsGet` / `jsSet` / `jsDel`).
* JavaScript numbers holding timestamps and durations become `Int`
  (millisecond integers; `new Date(x).getTime()` is treated as the identity
  on epoch milliseconds, parsing being an external collaborator).
* JavaScript truthiness tests are translated literally: a number is truthy
  iff it is nonzero, a string iff it is nonempty, `undefined` is falsy.
* `Array.prototype.sort(cmp)` is modelled as the stable insertion sort
  `List.insertionSort r` with `r a b ↔ cmp a b ≤ 0`; the default
  comparator-less `sort()` compares decimal string representations.
* `console.log` / `console.error` presentation (colors, padding, column
  layout) is not modelled; printed records are kept as structured values,
  and warnings are modelled by a counter.
-/

namespace Evttool

/-! ## JavaScript object-as-map helpers -/

/-- Lookup in a JS object modelled as an association list (first match). -/
def jsGet {κ ν : Type} [BEq κ] (m : List (κ × ν)) (k : κ) : Option ν :=
  (m.find? (fun p => p.1 == k)).map (fun p => p.2)

/-- `obj[k] = v`: replace the binding if the key is present, else append it
(JS objects keep insertion order for string keys). -/
def jsSet {κ ν : Type} [BEq κ] (m : List (κ × ν)) (k : κ) (v : ν) :
    List (κ × ν) :=
  match m with
  | [] => [(k, v)]
  | p :: rest => if p.1 == k then (k, v) :: rest else p :: jsSet rest k v

/-- `delete obj[k]`. -/
def jsDel {κ ν : Type} [BEq κ] (m : List (κ × ν)) (k : κ) : List (κ × ν) :=
  match m with
  | [] => []
  | p :: rest => if p.1 == k then rest else p :: jsDel rest k

/-- Truthiness of an optional JS number: `undefined` and `0` are falsy. -/
def jsTruthyNum (o : Option Int) : Bool :=
  match o with
  | none => false
  | some t => t != 0

/-- Truthiness of an optional JS string: `undefined` and `''` are falsy. -/
def jsTruthyStr (o : Option String) : Bool :=
  match o with
  | none => false
  | some s => s != ""

/-! ## Small string helpers from the source -/

/-- `path.basename(name)`: the component after the last `/`.  (Node's extra
trailing-slash handling never arises for the module names fed to it.) -/
def basename (s : String) : String :=
  String.mk ((s.data.reverse.takeWhile (fun c => c != '/')).reverse)

/-- `label.indexOf(className) === 0`: does `s` begin with `p`?
(A character-level equivalent of `String.startsWith`, kept structural.) -/
def listBeginsWith : List Char → List Char → Bool
  | _, [] => true
  | [], _ :: _ => false
  | c :: cs, d :: ds => c == d && listBeginsWith cs ds

/-- String begins-with on the character lists. -/
def strBeginsWith (s p : String) : Bool :=
  listBeginsWith s.data p.data

/-- Character-level worker for `trimIdSeq`. -/
def trimIdSeqChars (cs : List Char) : List Char :=
  let rcs := cs.reverse
  let digits := rcs.takeWhile (fun c => c.isDigit)
  let rest := rcs.dropWhile (fun c => c.isDigit)
  if digits ≠ [] ∧ rest.head? = some '.' then (rest.drop 1).reverse else cs

/-- `id.replace(/\.[0-9]+$/, '')`: strip one trailing `.digits` group,
e.g. `imgapi.getimage.1429078896344 -> imgapi.getimage`. -/
def trimIdSeq (id : String) : String :=
  String.mk (trimIdSeqChars id.data)

/-! ## Record normalizer (`objToEvent`) -/

/-- The nested `obj.evt` object of a raw bunyan record. -/
structure RawEvtObj where
  ph : String
  name : String
  req_time : Option Int
  req_seq : Option Int
  deriving Repr, DecidableEq

/-- The fields of a raw decoded record that `objToEvent` reads.  `time` is
already in epoch milliseconds (`new Date(obj.time).getTime()` is external
date parsing, modelled as the identity). -/
structure RawObj where
  evt : Option RawEvtObj
  req_id : Option String
  name : String
  hostname : String
  stack : Option String
  time : Int
  deriving Repr, DecidableEq

/-- The normalized Event (the fields kept after the `delete` statements). -/
structure Event where
  hostname : String
  time : Int
  phase : String
  req_id : String
  id : String
  deriving Repr, DecidableEq

/-- `objToEvent(obj)`: normalize a raw record into an Event, or `null`. -/
def objToEvent (obj : RawObj) : Option Event :=
  match obj.evt with
  | none => none
  | some e =>
    if ¬ jsTruthyStr obj.req_id then none
    else if e.ph ≠ "b" ∧ e.ph ≠ "e" then none
    else
      let className := basename obj.name
      let label := e.name
      let id :=
        if jsTruthyStr obj.stack then obj.stack.getD ""
        else if className = label then className
        else if strBeginsWith label className then label
        else className ++ "." ++ label
      let id :=
        if jsTruthyNum e.req_time then id ++ "." ++ toString (e.req_time.getD 0)
        else if jsTruthyNum e.req_seq then id ++ "." ++ toString (e.req_seq.getD 0)
        else id
      some { hostname := obj.hostname
             time := obj.time
             phase := if e.ph = "b" then "begin" else "end"
             req_id := obj.req_id.getD ""
             id := id }

/-- Identity derivation written from the SPEC's words (claim C3), for
comparison with the identity computed by `objToEvent`: call-stack field when
(truthily) present; else the bare operation name when it equals the module
name; else the operation name when it starts with the module name; else
`module ++ "." ++ operation`; a truthily present `req_time` (else `req_seq`)
is appended as a further `.`-separated suffix. -/
def specIdentity (module operation : String) (stack : Option String)
    (req_time req_seq : Option Int) : String :=
  let base :=
    if jsTruthyStr stack then stack.getD ""
    else if operation = module then operation
    else if strBeginsWith operation module then operation
    else module ++ "." ++ operation
  if jsTruthyNum req_time then base ++ "." ++ toString (req_time.getD 0)
  else if jsTruthyNum req_seq then base ++ "." ++ toString (req_seq.getD 0)
  else base

/-! ## Span correlator (`handleBegin` / `handleEnd` / `handleEvent`) -/

/-- `evtSig(evt)`: the correlation signature. -/
def evtSig (evt : Event) : String :=
  evt.req_id ++ ":" ++ evt.hostname ++ ":" ++ evt.id

/-- A completed span, as pushed onto `requestEvents[evt.req_id]`. -/
structure Span where
  elapsed : Int
  hostname : String
  id : String
  start : Int
  deriving Repr, DecidableEq

/-- The correlator's mutable state: the `openEvents` and `requestEvents`
globals, plus a counter of `WARN:` lines written to stderr. -/
structure CState where
  openEvents : List (String × Int)
  requestEvents : List (String × List Span)
  warnings : Nat
  deriving Repr, DecidableEq

/-- The empty initial state of the globals. -/
def CState.init : CState := ⟨[], [], 0⟩

/-- `handleBegin(evt)` (state effects; stream/raw output is presentation
and not modelled). -/
def handleBegin (st : CState) (evt : Event) : CState :=
  let sig := evtSig evt
  if jsTruthyNum (jsGet st.openEvents sig) then
    -- WARN: got begin twice without end
    { st with warnings := st.warnings + 1 }
  else
    { st with openEvents := jsSet st.openEvents sig evt.time }

/-- `handleEnd(evt)` (state effects; output is presentation). -/
def handleEnd (st : CState) (evt : Event) : CState :=
  let sig := evtSig evt
  if ¬ jsTruthyNum (jsGet st.openEvents sig) then
    -- ignore ends without beginnings!
    st
  else
    let start := (jsGet st.openEvents sig).getD 0
    let elapsed := evt.time - start
    let span : Span :=
      { elapsed := elapsed
        hostname := evt.hostname
        id := trimIdSeq evt.id
        start := start }
    let prev := (jsGet st.requestEvents evt.req_id).getD []
    { st with
      openEvents := jsDel st.openEvents sig
      requestEvents := jsSet st.requestEvents evt.req_id (prev ++ [span]) }

/-- The guard `cmdline_opts.timeline && (evt.req_id != cmdline_opts.timeline)`
of `handleEvent`. -/
def timelineSkips (timeline : Option String) (evt : Event) : Bool :=
  match timeline with
  | some t => evt.req_id != t
  | none => false

/-- `handleEvent(evt)`: dispatch on the phase; `timeline` is
`cmdline_opts.timeline`.  The `default:` branch throws. -/
def handleEvent (timeline : Option String) (st : CState)
    (evt? : Option Event) : Except String CState :=
  match evt? with
  | none => Except.ok st
  | some evt =>
    if timelineSkips timeline evt then
      -- When we're doing a timeline we only care about the one req
      Except.ok st
    else
      match evt.phase with
      | "end" => Except.ok (handleEnd st evt)
      | "begin" => Except.ok (handleBegin st evt)
      | other => Except.error ("Unhandled phase: " ++ other)

/-! ## Aggregator / report generator -/

/-- Recognized options that influence the report
(`cmdline_opts.time`, `cmdline_opts.events`); the regular-expression filter
is abstracted to a predicate on the candidate identity. -/
structure ReportOpts where
  time : Option Int
  events : Option (String → Bool)

/-- One `datapoints[id]` record (`{}` freshly created, both fields possibly
still `undefined`). -/
structure DataPoint where
  count : Option Int
  total : Option Int
  deriving Repr, DecidableEq

/-- One `data[first_id].events[k]` record. -/
structure ReportEvt where
  max : Int
  min : Int
  sum : Int
  values : List Int
  deriving Repr, DecidableEq

/-- One `data[first_id]` record. -/
structure ReportEntry where
  count : Int
  events : List (String × ReportEvt)
  max : Int
  min : Int
  deriving Repr, DecidableEq

/-- The globals written by `reportProcessRequest`:
`data` (per invocation), `insaneReqs` and `lateReqs`. -/
structure ReportGlobals where
  data : List (String × ReportEntry)
  insaneReqs : List (String × List (String × Int))
  lateReqs : List (String × List (String × Int))
  deriving Repr, DecidableEq

/-- The `_eventSorter` comparator `a.start - b.start` as the relation
"compares ≤ 0". -/
def startLe (a b : Span) : Prop := a.start ≤ b.start

instance : DecidableRel startLe := fun a b =>
  inferInstanceAs (Decidable (a.start ≤ b.start))

instance : IsTotal Span startLe := ⟨fun a b => Int.le_total a.start b.start⟩

instance : IsTrans Span startLe := ⟨fun _ _ _ hab hbc => le_trans hab hbc⟩

/-- `insaneReqs[req_id][id] = count` (creating the inner object). -/
def setInsane (m : List (String × List (String × Int))) (req_id id : String)
    (count : Int) : List (String × List (String × Int)) :=
  let inner := (jsGet m req_id).getD []
  jsSet m req_id (jsSet inner id count)

/-- `lateReqs[req_id][id] = (!lateReqs[req_id][id] ? 1 : ... + 1)`. -/
def bumpLate (m : List (String × List (String × Int))) (req_id id : String) :
    List (String × List (String × Int)) :=
  let inner := (jsGet m req_id).getD []
  let cur := jsGet inner id
  let v := if ¬ jsTruthyNum cur then (1 : Int) else cur.getD 0 + 1
  jsSet m req_id (jsSet inner id v)

/-- The `_recordOne` body: accumulate one span into `datapoints` and flag
insane / late requests. -/
def recordOne (req_id : String) (expected_finish : Int)
    (acc : List (String × DataPoint)
           × List (String × List (String × Int))
           × List (String × List (String × Int)))
    (evt : Span) :
    List (String × DataPoint)
    × List (String × List (String × Int))
    × List (String × List (String × Int)) :=
  let (datapoints, insane, late) := acc
  let id := trimIdSeq evt.id
  let dp := (jsGet datapoints id).getD ⟨none, none⟩
  let newCount : Int := if ¬ jsTruthyNum dp.count then 1 else dp.count.getD 0 + 1
  let newTotal : Int :=
    if ¬ jsTruthyNum dp.total then evt.elapsed else dp.total.getD 0 + evt.elapsed
  let datapoints := jsSet datapoints id ⟨some newCount, some newTotal⟩
  -- Any req_id with more than 100 runs of the same task seems like a problem
  let insane := if newCount > 100 then setInsane insane req_id id newCount else insane
  let late := if evt.start > expected_finish then bumpLate late req_id id else late
  (datapoints, insane, late)

/-- Merge one summed datapoint into `data[first_id].events[k]`. -/
def mergeDatapoint (first_id : String)
    (data : List (String × ReportEntry)) (kv : String × DataPoint) :
    List (String × ReportEntry) :=
  let k := kv.1
  let total := kv.2.total.getD 0
  let entry := (jsGet data first_id).getD ⟨0, [], 0, 0⟩
  let evt := (jsGet entry.events k).getD ⟨0, 0, 0, []⟩
  let evt := { evt with values := evt.values ++ [total], sum := evt.sum + total }
  let evt := if evt.max = 0 ∨ total > evt.max then { evt with max := total } else evt
  let evt := if evt.min = 0 ∨ total < evt.min then { evt with min := total } else evt
  jsSet data first_id { entry with events := jsSet entry.events k evt }

/-- The `data[first_id]` update block of `reportProcessRequest`
(creation with zero fields, `count++`, and the `=== 0 ||` guarded running
min/max of the top-level elapsed). -/
def bumpEntry (data : List (String × ReportEntry)) (first_id : String)
    (elapsed : Int) : ReportEntry :=
  let entry := (jsGet data first_id).getD ⟨0, [], 0, 0⟩
  let entry := { entry with count := entry.count + 1 }
  let entry :=
    if entry.min = 0 ∨ elapsed < entry.min
    then { entry with min := elapsed } else entry
  if entry.max = 0 ∨ elapsed > entry.max
  then { entry with max := elapsed } else entry

/-- `reportProcessRequest(req_id, events, data)`.  The `events` list coming
from the correlator is never empty; on `[]` the JS code would fault reading
`sorted[0].id`, so the model returns the globals unchanged there. -/
def reportProcessRequest (opts : ReportOpts) (req_id : String)
    (events : List Span) (g : ReportGlobals) : ReportGlobals :=
  match List.insertionSort startLe events with
  | [] => g
  | first :: _ =>
    let sorted := List.insertionSort startLe events
    let first_id := trimIdSeq first.id
    -- if we've got a time filter, remove those that are too fast
    if jsTruthyNum opts.time ∧ first.elapsed < opts.time.getD 0 then g
    else if (match opts.events with
             | some f => ¬ f first_id
             | none => false : Bool) then g
    else
      let expected_finish := first.start + first.elapsed
      let data := jsSet g.data first_id (bumpEntry g.data first_id first.elapsed)
      let acc :=
        sorted.foldl (recordOne req_id expected_finish) ([], g.insaneReqs, g.lateReqs)
      let data := acc.1.foldl (mergeDatapoint first_id) data
      { data := data, insaneReqs := acc.2.1, lateReqs := acc.2.2 }

/-! ## Power-of-two histogram (`powerOfTwoBuckets`) -/

/-- The `while (d >= Math.pow(2, bucket)) { bucket++; }` loop. -/
def bucketLoop (d : Int) (b : Nat) : Nat :=
  if (2 : Int) ^ b ≤ d then bucketLoop d (b + 1) else b
termination_by (d + 1 - (2 : Int) ^ b).toNat
decreasing_by
  have h1 : (0 : Int) < 2 ^ b := pow_pos (by norm_num) b
  omega

/-- The exponent of the bucket a value is counted in; the JS bucket key is
`2 ^ bucketExp d`. -/
def bucketExp (d : Int) : Nat := bucketLoop d 0

/-- Accumulator of the first (counting) pass of `powerOfTwoBuckets`. -/
structure BucketAcc where
  max_count : Nat
  counts : List (Int × Nat)
  minExp : Option Nat
  maxExp : Option Nat
  deriving Repr, DecidableEq

/-- The final histogram.  Keys of `counts` are bucket exponents: the entry
at key `e` models the JS object entry at key `2 ^ e` (so the half-minimum
fill bucket `min / 2` with `min = 1` is key `-1`, i.e. JS key `0.5`). -/
structure Buckets where
  max_count : Nat
  counts : List (Int × Nat)
  deriving Repr, DecidableEq

/-- One iteration of the counting pass: min/max bucket tracking, count
increment, `max_count` update.  (Comparisons of bucket values `2 ^ e`
are order-isomorphic to comparisons of exponents `e`.) -/
def bucketStep (acc : BucketAcc) (d : Int) : BucketAcc :=
  let bucket := bucketExp d
  let minExp := match acc.minExp with
    | none => some bucket
    | some m => if bucket < m then some bucket else some m
  let maxExp := match acc.maxExp with
    | none => some bucket
    | some m => if bucket > m then some bucket else some m
  -- `if (!buckets[bucket_value]) { buckets[bucket_value] = 0; }` then `++`
  let newCount := (jsGet acc.counts (bucket : Int)).getD 0 + 1
  { max_count := if newCount > acc.max_count then newCount else acc.max_count
    counts := jsSet acc.counts (bucket : Int) newCount
    minExp := minExp
    maxExp := maxExp }

/-- `[lo, lo+1, ..., hi]` as integers. -/
def rangeInts (lo hi : Int) : List Int :=
  (List.range (hi + 1 - lo).toNat).map (fun i : Nat => lo + (i : Int))

/-- One iteration of the fill loop:
`if (!buckets.hasOwnProperty(i)) buckets[i] = 0`.  The guard `i > 0` of the
source is always true here since `i = 2 ^ e > 0`. -/
def fillStep (cs : List (Int × Nat)) (e : Int) : List (Int × Nat) :=
  if (jsGet cs e).isNone then jsSet cs e 0 else cs

/-- `powerOfTwoBuckets(data)`: count pass, then fill every bucket from
`min / 2` up to `max * 2` (exponents `minExp - 1 .. maxExp + 1`).  On empty
data the JS fill loop runs zero times (`min` is `undefined`). -/
def powerOfTwoBuckets (data : List Int) : Buckets :=
  let acc := data.foldl bucketStep ⟨0, [], none, none⟩
  match acc.minExp, acc.maxExp with
  | some minE, some maxE =>
    ⟨acc.max_count, (rangeInts ((minE : Int) - 1) ((maxE : Int) + 1)).foldl fillStep acc.counts⟩
  | _, _ => ⟨acc.max_count, acc.counts⟩

/-! ## Report statistics (`outputReport` inner loop) -/

/-- The decimal string of a JS number holding an integer. -/
def jsNumStr (i : Int) : String := toString i

/-- Lexicographic strict comparison of character lists by code unit, the
comparison JavaScript's `<` performs on strings. -/
def charListLt : List Char → List Char → Bool
  | _, [] => false
  | [], _ :: _ => true
  | c :: cs, d :: ds =>
    if c.toNat < d.toNat then true
    else if d.toNat < c.toNat then false
    else charListLt cs ds

/-- The ordering used by comparator-less `Array.prototype.sort()`:
ascending by the elements' decimal string representations
(`a ≤ b` iff not `str b < str a`). -/
def valueLe (a b : Int) : Prop :=
  charListLt (jsNumStr b).data (jsNumStr a).data = false

theorem charListLt_asymm : ∀ x y : List Char,
    charListLt x y = true → charListLt y x = false := by
  intro x
  induction x with
  | nil =>
    intro y h
    cases y with
    | nil => rfl
    | cons d ds => rfl
  | cons c cs ih =>
    intro y h
    cases y with
    | nil => exact absurd h (by simp [charListLt])
    | cons d ds =>
      rw [charListLt] at h ⊢
      by_cases h1 : c.toNat < d.toNat
      · rw [if_neg (by omega), if_pos h1]
      · rw [if_neg h1] at h
        by_cases h2 : d.toNat < c.toNat
        · rw [if_pos h2] at h
          exact absurd h (by simp)
        · rw [if_neg h2] at h
          rw [if_neg (by omega), if_neg (by omega)]
          exact ih ds h

theorem charListLt_conn : ∀ x z y : List Char, charListLt x z = true →
    charListLt x y = true ∨ charListLt y z = true := by
  intro x
  induction x with
  | nil =>
    intro z y h
    cases z with
    | nil => exact absurd h (by simp [charListLt])
    | cons z0 zs =>
      cases y with
      | nil => exact Or.inr rfl
      | cons y0 ys => exact Or.inl rfl
  | cons c cs ih =>
    intro z y h
    cases z with
    | nil => exact absurd h (by simp [charListLt])
    | cons z0 zs =>
      cases y with
      | nil => exact Or.inr rfl
      | cons y0 ys =>
        rw [charListLt] at h
        by_cases hcy : c.toNat < y0.toNat
        · exact Or.inl (by rw [charListLt, if_pos hcy])
        · by_cases hcz : c.toNat < z0.toNat
          · refine Or.inr ?_
            rw [charListLt, if_pos (by omega)]
          · rw [if_neg hcz] at h
            by_cases hzc : z0.toNat < c.toNat
            · rw [if_pos hzc] at h
              exact absurd h (by simp)
            · rw [if_neg hzc] at h
              by_cases hyc : y0.toNat < c.toNat
              · refine Or.inr ?_
                rw [charListLt, if_pos (by omega)]
              · rcases ih zs ys h with h2 | h2
                · refine Or.inl ?_
                  rw [charListLt, if_neg hcy, if_neg hyc]
                  exact h2
                · refine Or.inr ?_
                  rw [charListLt, if_neg (by omega), if_neg (by omega)]
                  exact h2

instance : DecidableRel valueLe := fun _ _ =>
  inferInstanceAs (Decidable (_ = false))

instance : IsTotal Int valueLe :=
  ⟨fun a b => by
    unfold valueLe
    by_cases h : charListLt (jsNumStr b).data (jsNumStr a).data = true
    · exact Or.inr (charListLt_asymm _ _ h)
    · exact Or.inl (by simpa using h)⟩

instance : IsTrans Int valueLe :=
  ⟨fun a b c hab hbc => by
    unfold valueLe at *
    by_contra hcontra
    have h3 : charListLt (jsNumStr c).data (jsNumStr a).data = true := by
      simpa using hcontra
    rcases charListLt_conn _ _ (jsNumStr b).data h3 with h4 | h4
    · rw [hbc] at h4
      exact absurd h4 (by simp)
    · rw [hab] at h4
      exact absurd h4 (by simp)⟩

/-- `values.sort()` (default, comparator-less). -/
def jsDefaultSort (values : List Int) : List Int :=
  List.insertionSort valueLe values

/-- The per-event statistics computed inside `outputReport`:
`median_idx = Math.floor((values.length + 1) / 2)`,
`median = values.sort()[median_idx]` (Option because the index can be out
of range, JS `undefined`), and `buckets = powerOfTwoBuckets(values)` on the
now in-place-sorted array.  The floating-point `mean` is not modelled. -/
def reportEvtStats (evt : ReportEvt) : Option Int × Buckets :=
  let median_idx := (evt.values.length + 1) / 2
  let sortedValues := jsDefaultSort evt.values
  (sortedValues.get? median_idx, powerOfTwoBuckets sortedValues)

/-! ## Timeline renderer (`outputTimeline`) -/

/-- A printed timeline line, structurally (offset formatting and
indentation rendering are presentation). -/
inductive TLine where
  | start (id : String) (suffix : String) (startMs : Int) (level : Int)
  | stop (id : String) (suffix : String) (endMs : Int) (elapsed : Int) (level : Int)
  deriving Repr, DecidableEq

/-- An entry of the `ends` stack of still-open spans. -/
structure OpenEnd where
  time : Int
  id : String
  elapsed : Int
  level : Int
  suffix : String
  deriving Repr, DecidableEq

/-- The timeline span comparator
`a.start === b.start ? a.id.length - b.id.length : a.start - b.start`
as the relation "compares ≤ 0". -/
def tlSpanLe (a b : Span) : Prop :=
  a.start < b.start ∨ (a.start = b.start ∧ a.id.length ≤ b.id.length)

instance : DecidableRel tlSpanLe := fun a b =>
  inferInstanceAs (Decidable (a.start < b.start ∨ (a.start = b.start ∧ a.id.length ≤ b.id.length)))

instance : IsTotal Span tlSpanLe :=
  ⟨fun a b => by
    unfold tlSpanLe
    rcases lt_trichotomy a.start b.start with h | h | h
    · exact Or.inl (Or.inl h)
    · rcases Nat.le_total a.id.length b.id.length with hl | hl
      · exact Or.inl (Or.inr ⟨h, hl⟩)
      · exact Or.inr (Or.inr ⟨h.symm, hl⟩)
    · exact Or.inr (Or.inl h)⟩

instance : IsTrans Span tlSpanLe :=
  ⟨fun a b c hab hbc => by
    unfold tlSpanLe at *
    rcases hab with h1 | ⟨h1, h1l⟩ <;> rcases hbc with h2 | ⟨h2, h2l⟩
    · exact Or.inl (h1.trans h2)
    · exact Or.inl (h2 ▸ h1)
    · exact Or.inl (h1 ▸ h2)
    · exact Or.inr ⟨h1.trans h2, h1l.trans h2l⟩⟩

/-- The `printme` comparator
`a.time === b.time ? b.id.length - a.id.length : a.time - b.time`
as the relation "compares ≤ 0" (end-time ascending, ties by descending
identity length). -/
def printmeLe (a b : OpenEnd) : Prop :=
  a.time < b.time ∨ (a.time = b.time ∧ b.id.length ≤ a.id.length)

instance : DecidableRel printmeLe := fun a b =>
  inferInstanceAs (Decidable (a.time < b.time ∨ (a.time = b.time ∧ b.id.length ≤ a.id.length)))

instance : IsTotal OpenEnd printmeLe :=
  ⟨fun a b => by
    unfold printmeLe
    rcases lt_trichotomy a.time b.time with h | h | h
    · exact Or.inl (Or.inl h)
    · rcases Nat.le_total a.id.length b.id.length with hl | hl
      · exact Or.inr (Or.inr ⟨h.symm, hl⟩)
      · exact Or.inl (Or.inr ⟨h, hl⟩)
    · exact Or.inr (Or.inl h)⟩

instance : IsTrans OpenEnd printmeLe :=
  ⟨fun a b c hab hbc => by
    unfold printmeLe at *
    rcases hab with h1 | ⟨h1, h1l⟩ <;> rcases hbc with h2 | ⟨h2, h2l⟩
    · exact Or.inl (h1.trans h2)
    · exact Or.inl (h2 ▸ h1)
    · exact Or.inl (h1 ▸ h2)
    · exact Or.inr ⟨h1.trans h2, h2l.trans h1l⟩⟩

/-- The state threaded through the `sorted.forEach` loop. -/
structure TLState where
  ends : List OpenEnd
  level : Int
  seen_starts : List (String × Int)
  out : List TLine
  deriving Repr, DecidableEq

/-- An `OpenEnd` printed by `printEnd`. -/
def endLine (e : OpenEnd) : TLine :=
  TLine.stop e.id e.suffix e.time e.elapsed e.level

/-- One iteration of the `sorted.forEach` body: close (and print, in
`printme` order) every open span whose end time is at or before this span's
start, compute the repeated-identity suffix, push this span's end entry and
print its START line. -/
def timelineStep (st : TLState) (evt : Span) : TLState :=
  let removed := st.ends.filter (fun e => decide (evt.start ≥ e.time))
  let kept := st.ends.filter (fun e => ! decide (evt.start ≥ e.time))
  let level1 := st.level - removed.length
  let printme := List.insertionSort printmeLe removed
  let out1 := st.out ++ printme.map endLine
  let suffixSeen :=
    match jsGet st.seen_starts evt.id with
    | some n => (" [" ++ toString (n + 1) ++ "]", jsSet st.seen_starts evt.id (n + 1))
    | none => ("", jsSet st.seen_starts evt.id 0)
  let ends1 := kept ++ [⟨evt.start + evt.elapsed, evt.id, evt.elapsed, level1, suffixSeen.1⟩]
  { ends := ends1
    level := level1 + 1
    seen_starts := suffixSeen.2
    out := out1 ++ [TLine.start evt.id suffixSeen.1 evt.start level1] }

/-- The state after the main `sorted.forEach` loop of `outputTimeline`. -/
def timelineMain (spans : List Span) : TLState :=
  (List.insertionSort tlSpanLe spans).foldl timelineStep ⟨[], 0, [], []⟩

/-- `outputTimeline` for the spans of one request: the main loop's output
followed by the final `while (ends.length > 0) { evt = ends.pop(); ... }`
drain, which prints the remaining open spans in stack-pop (reverse push)
order. -/
def outputTimeline (spans : List Span) : List TLine :=
  let fin := timelineMain spans
  fin.out ++ fin.ends.reverse.map endLine

/-- The headline lookup of `outputTimeline`: an error (`none`) when the
requested id has no recorded spans. -/
def outputTimelineFor (requestEvents : List (String × List Span))
    (req : String) : Option (List TLine) :=
  (jsGet requestEvents req).map outputTimeline

/-! ## Association-list lemmas -/

theorem jsGet_nil {κ ν : Type} [BEq κ] (k : κ) :
    jsGet ([] : List (κ × ν)) k = none := rfl

theorem jsGet_jsSet_self {κ ν : Type} [BEq κ] [LawfulBEq κ]
    (m : List (κ × ν)) (k : κ) (v : ν) :
    jsGet (jsSet m k v) k = some v := by
  induction m with
  | nil => simp [jsGet, jsSet, List.find?]
  | cons p rest ih =>
    by_cases h : p.1 == k
    · simp [jsSet, h, jsGet, List.find?]
    · simp only [jsSet, h, Bool.false_eq_true, if_false]
      simpa [jsGet, List.find?, h] using ih

theorem jsGet_jsSet_ne {κ ν : Type} [BEq κ] [LawfulBEq κ]
    (m : List (κ × ν)) (k k2 : κ) (v : ν) (h : k2 ≠ k) :
    jsGet (jsSet m k v) k2 = jsGet m k2 := by
  have hk : (k == k2) = false := by
    rw [beq_eq_false_iff_ne]
    exact fun hh => h hh.symm
  induction m with
  | nil => simp [jsGet, jsSet, List.find?, hk]
  | cons p rest ih =>
    by_cases hp : p.1 == k
    · have hpk : p.1 = k := by simpa using hp
      have hp2 : (p.1 == k2) = false := by rw [hpk]; exact hk
      simp [jsSet, hp, jsGet, List.find?, hk, hp2]
    · simp only [jsSet, hp, Bool.false_eq_true, if_false]
      by_cases hp2 : p.1 == k2
      · simp [jsGet, List.find?, hp2]
      · simpa [jsGet, List.find?, hp2] using ih

/-! ## Claim C1 (and shared correlator lemmas) -/

/-- Shared lemma: `handleEnd` on a truthily open signature removes the open
entry and appends the completed span. -/
theorem handleEnd_open (st : CState) (evt : Event) (t : Int)
    (h : jsGet st.openEvents (evtSig evt) = some t) (ht : t ≠ 0) :
    handleEnd st evt =
      { st with
        openEvents := jsDel st.openEvents (evtSig evt)
        requestEvents := jsSet st.requestEvents evt.req_id
          ((jsGet st.requestEvents evt.req_id).getD [] ++
            [{ elapsed := evt.time - t, hostname := evt.hostname,
               id := trimIdSeq evt.id, start := t }]) } := by
  simp [handleEnd, h, jsTruthyNum, ht]

/-- C1: for a matched Begin/End pair (the signature is open with the
recorded, truthy Begin time `t`), the span appended to the request's list
has `elapsed = evt.time - t` exactly and `start = t`; the value is an
unrestricted integer difference, so a negative difference is neither
clamped nor rejected (the witness exercises a negative case). -/
theorem c1_matched_pair_span_exact (st : CState) (evt : Event) (t : Int)
    (h : jsGet st.openEvents (evtSig evt) = some t) (ht : t ≠ 0) :
    jsGet (handleEnd st evt).requestEvents evt.req_id =
      some ((jsGet st.requestEvents evt.req_id).getD [] ++
        [{ elapsed := evt.time - t, hostname := evt.hostname,
           id := trimIdSeq evt.id, start := t }]) := by
  rw [handleEnd_open st evt t h ht]
  exact jsGet_jsSet_self _ _ _

/-- Witness for C1 at a concrete input with clock skew: Begin at 20, End at
15, elapsed `-5`. -/
theorem c1_matched_pair_span_exact_witness :
    jsGet (handleEnd ⟨[("r:h:x", 20)], [], 0⟩
        ⟨"h", 15, "end", "r", "x"⟩).requestEvents "r" =
      some [{ elapsed := -5, hostname := "h", id := "x", start := 20 }] := by
  have h := c1_matched_pair_span_exact ⟨[("r:h:x", 20)], [], 0⟩
    ⟨"h", 15, "end", "r", "x"⟩ 20 (by decide) (by decide)
  simpa using h

/-! ## Claim C2 -/

/-- C2 counterexample: with a Begin recorded at timestamp exactly `0`, the
signature is open (the `openEvents` entry exists), yet a second Begin
produces no warning and overwrites the recorded timestamp with its own,
contradicting the claim's "emits a warning, leaves the recorded open
timestamp unchanged". -/
theorem c2_counterexample :
    (handleBegin (handleBegin CState.init ⟨"h", 0, "begin", "r", "x"⟩)
        ⟨"h", 5, "begin", "r", "x"⟩).warnings = 0 ∧
    jsGet (handleBegin (handleBegin CState.init ⟨"h", 0, "begin", "r", "x"⟩)
        ⟨"h", 5, "begin", "r", "x"⟩).openEvents "r:h:x" = some 5 ∧
    jsGet (handleBegin CState.init ⟨"h", 0, "begin", "r", "x"⟩).openEvents
        "r:h:x" = some 0 := by
  decide

/-- C2 (amended: the recorded open timestamp must be nonzero, i.e. truthy,
for the duplicate-begin guard to fire): while a Begin with nonzero recorded
time `t` is open for a signature, a second Begin for the same signature
increments the warning count, leaves `openEvents` (hence the recorded
timestamp, and the single open state) unchanged, and a later End for the
signature closes it with the first Begin's timestamp `t`. -/
theorem c2_duplicate_begin_warns (st : CState) (evt : Event) (t : Int)
    (h : jsGet st.openEvents (evtSig evt) = some t) (ht : t ≠ 0) :
    (handleBegin st evt).warnings = st.warnings + 1 ∧
    (handleBegin st evt).openEvents = st.openEvents ∧
    ∀ evt2 : Event, evtSig evt2 = evtSig evt →
      jsGet (handleEnd (handleBegin st evt) evt2).requestEvents evt2.req_id =
        some ((jsGet st.requestEvents evt2.req_id).getD [] ++
          [{ elapsed := evt2.time - t, hostname := evt2.hostname,
             id := trimIdSeq evt2.id, start := t }]) := by
  have hb : handleBegin st evt = { st with warnings := st.warnings + 1 } := by
    simp [handleBegin, h, jsTruthyNum, ht]
  refine ⟨by rw [hb], by rw [hb], fun evt2 hsig => ?_⟩
  have h2 : jsGet (handleBegin st evt).openEvents (evtSig evt2) = some t := by
    rw [hb, hsig]; exact h
  rw [handleEnd_open (handleBegin st evt) evt2 t h2 ht]
  rw [hb]
  exact jsGet_jsSet_self _ _ _

/-- Witness for C2 (amended) at a concrete input: open Begin at 9, second
Begin at 5 warns and is dropped, End at 30 yields elapsed `21 = 30 - 9`. -/
theorem c2_duplicate_begin_warns_witness :
    (handleBegin ⟨[("r:h:x", 9)], [], 0⟩ ⟨"h", 5, "begin", "r", "x"⟩).warnings = 1 ∧
    jsGet (handleEnd (handleBegin ⟨[("r:h:x", 9)], [], 0⟩ ⟨"h", 5, "begin", "r", "x"⟩)
        ⟨"h", 30, "end", "r", "x"⟩).requestEvents "r" =
      some [{ elapsed := 21, hostname := "h", id := "x", start := 9 }] := by
  have h := c2_duplicate_begin_warns ⟨[("r:h:x", 9)], [], 0⟩
    ⟨"h", 5, "begin", "r", "x"⟩ 9 (by decide) (by decide)
  exact ⟨by simpa using h.1, by simpa using h.2.2 ⟨"h", 30, "end", "r", "x"⟩ rfl⟩

/-! ## Claim C10 -/

/-- C10: the duplicate-begin and orphan-end guards test truthiness of the
stored timestamp, not entry presence.  A Begin at time exactly `0` stores a
falsy entry: a later End for the signature is treated as an orphan (state
unchanged, no span), and a second Begin overwrites the entry without any
duplicate-begin warning. -/
theorem c10_zero_timestamp_falsy (st : CState) (b : Event)
    (htime : b.time = 0)
    (hguard : jsTruthyNum (jsGet st.openEvents (evtSig b)) = false) :
    jsGet (handleBegin st b).openEvents (evtSig b) = some 0 ∧
    (∀ e : Event, evtSig e = evtSig b → handleEnd (handleBegin st b) e = handleBegin st b) ∧
    (∀ b2 : Event, evtSig b2 = evtSig b →
      (handleBegin (handleBegin st b) b2).warnings = (handleBegin st b).warnings ∧
      jsGet (handleBegin (handleBegin st b) b2).openEvents (evtSig b) = some b2.time) := by
  have hb : handleBegin st b = { st with openEvents := jsSet st.openEvents (evtSig b) b.time } := by
    simp [handleBegin, hguard]
  have hstored : jsGet (handleBegin st b).openEvents (evtSig b) = some 0 := by
    rw [hb]
    simpa [htime] using jsGet_jsSet_self st.openEvents (evtSig b) b.time
  refine ⟨hstored, fun e hsig => ?_, fun b2 hsig => ?_⟩
  · have hstoredE : jsGet (handleBegin st b).openEvents (evtSig e) = some 0 := by
      rw [hsig]; exact hstored
    simp [handleEnd, hstoredE, jsTruthyNum]
  · have hstored2 : jsGet (handleBegin st b).openEvents (evtSig b2) = some 0 := by
      rw [hsig]; exact hstored
    have hcond : jsTruthyNum (jsGet (handleBegin st b).openEvents (evtSig b2)) = false := by
      rw [hstored2]; rfl
    have hb2 : handleBegin (handleBegin st b) b2 =
        { handleBegin st b with
          openEvents := jsSet (handleBegin st b).openEvents (evtSig b2) b2.time } := by
      generalize hst1 : handleBegin st b = st1 at hcond ⊢
      simp [handleBegin, hcond]
    rw [hb2]
    refine ⟨rfl, ?_⟩
    rw [← hsig]
    exact jsGet_jsSet_self _ _ _

/-- Witness for C10 at a concrete input: Begin at time 0, End at 50 is
dropped as an orphan, second Begin at 7 overwrites silently. -/
theorem c10_zero_timestamp_falsy_witness :
    jsGet (handleBegin CState.init ⟨"h", 0, "begin", "r", "x"⟩).openEvents "r:h:x" = some 0 ∧
    handleEnd (handleBegin CState.init ⟨"h", 0, "begin", "r", "x"⟩)
        ⟨"h", 50, "end", "r", "x"⟩ =
      handleBegin CState.init ⟨"h", 0, "begin", "r", "x"⟩ ∧
    (handleBegin (handleBegin CState.init ⟨"h", 0, "begin", "r", "x"⟩)
        ⟨"h", 7, "begin", "r", "x"⟩).warnings = 0 ∧
    jsGet (handleBegin (handleBegin CState.init ⟨"h", 0, "begin", "r", "x"⟩)
        ⟨"h", 7, "begin", "r", "x"⟩).openEvents "r:h:x" = some 7 := by
  have h := c10_zero_timestamp_falsy CState.init ⟨"h", 0, "begin", "r", "x"⟩
    rfl (by decide)
  refine ⟨h.1, h.2.1 ⟨"h", 50, "end", "r", "x"⟩ rfl, ?_, ?_⟩
  · simpa using (h.2.2 ⟨"h", 7, "begin", "r", "x"⟩ rfl).1
  · simpa using (h.2.2 ⟨"h", 7, "begin", "r", "x"⟩ rfl).2

/-! ## Claim C3 -/

/-- C3: the identity computed by `objToEvent` refines `specIdentity`, the
derivation written from the spec's words (call stack when truthily present;
else bare operation when equal to the module; else the operation when it
starts with the module; else `module ++ "." ++ operation`; a truthily
present `req_time`, else `req_seq`, appended as a `.`-separated suffix) —
together with the concrete cases: module `vmapi` with operation `vmapi`
yields `vmapi`, with `vmapi.getvm` yields `vmapi.getvm`, with `getvm`
yields `vmapi.getvm`, and a present `req_time` of `123` yields
`vmapi.getvm.123`. -/
theorem c3_identity_derivation :
    (∀ (obj : RawObj) (e : RawEvtObj) (evt : Event),
       obj.evt = some e → objToEvent obj = some evt →
       evt.id = specIdentity (basename obj.name) e.name obj.stack e.req_time e.req_seq) ∧
    objToEvent ⟨some ⟨"b", "vmapi", none, none⟩, some "r1", "vmapi", "h1", none, 100⟩ =
      some ⟨"h1", 100, "begin", "r1", "vmapi"⟩ ∧
    objToEvent ⟨some ⟨"b", "vmapi.getvm", none, none⟩, some "r1", "vmapi", "h1", none, 100⟩ =
      some ⟨"h1", 100, "begin", "r1", "vmapi.getvm"⟩ ∧
    objToEvent ⟨some ⟨"b", "getvm", none, none⟩, some "r1", "vmapi", "h1", none, 100⟩ =
      some ⟨"h1", 100, "begin", "r1", "vmapi.getvm"⟩ ∧
    objToEvent ⟨some ⟨"b", "getvm", some 123, none⟩, some "r1", "vmapi", "h1", none, 100⟩ =
      some ⟨"h1", 100, "begin", "r1", "vmapi.getvm.123"⟩ ∧
    objToEvent ⟨some ⟨"e", "op", none, some 7⟩, some "r1", "mod", "h1", some "a.b.c", 100⟩ =
      some ⟨"h1", 100, "end", "r1", "a.b.c.7"⟩ := by
  refine ⟨?_, by decide, by decide, by decide, by decide, by decide⟩
  intro obj e evt he hobj
  simp only [objToEvent, he] at hobj
  split at hobj
  · exact absurd hobj (by simp)
  · split at hobj
    · exact absurd hobj (by simp)
    · injection hobj with hevt
      rw [← hevt]
      simp only [specIdentity]
      have hbase :
          (if jsTruthyStr obj.stack = true then obj.stack.getD ""
           else if basename obj.name = e.name then basename obj.name
           else if strBeginsWith e.name (basename obj.name) = true then e.name
           else basename obj.name ++ "." ++ e.name) =
          (if jsTruthyStr obj.stack = true then obj.stack.getD ""
           else if e.name = basename obj.name then e.name
           else if strBeginsWith e.name (basename obj.name) = true then e.name
           else basename obj.name ++ "." ++ e.name) := by
        by_cases h1 : jsTruthyStr obj.stack = true
        · simp [h1]
        · by_cases h2 : basename obj.name = e.name
          · simp [h1, h2]
          · have h2s : ¬ e.name = basename obj.name := fun hh => h2 hh.symm
            simp [h1, h2, h2s]
      rw [hbase]

/-- Witness for C3's general conjunct at module `vmapi`, operation
`getvm`. -/
theorem c3_identity_derivation_witness :
    ({ hostname := "h1", time := 100, phase := "begin", req_id := "r1",
       id := "vmapi.getvm" } : Event).id =
      specIdentity (basename "vmapi") "getvm" none none none :=
  c3_identity_derivation.1
    ⟨some ⟨"b", "getvm", none, none⟩, some "r1", "vmapi", "h1", none, 100⟩
    ⟨"b", "getvm", none, none⟩ _ rfl (by decide)

/-! ## Claim C9 -/

/-- Whether a dispatch succeeded (did not throw). -/
def isOk {ε α : Type} : Except ε α → Bool
  | Except.ok _ => true
  | Except.error _ => false

/-- C9: every Event produced by `objToEvent` has phase `"begin"` or
`"end"`, so `handleEvent` never reaches its fatal `default:` branch on a
normalizer-produced event; and an event whose phase is anything else (when
not discarded by the timeline request filter) aborts with the descriptive
`Unhandled phase` error. -/
theorem c9_phase_dispatch_total :
    (∀ (obj : RawObj) (evt : Event), objToEvent obj = some evt →
       (evt.phase = "begin" ∨ evt.phase = "end") ∧
       ∀ (tl : Option String) (st : CState),
         isOk (handleEvent tl st (some evt)) = true) ∧
    (∀ (tl : Option String) (st : CState) (evt : Event),
       evt.phase ≠ "begin" → evt.phase ≠ "end" →
       (∀ t, tl = some t → evt.req_id = t) →
       handleEvent tl st (some evt) =
         Except.error ("Unhandled phase: " ++ evt.phase)) := by
  constructor
  · intro obj evt hobj
    have hphase : evt.phase = "begin" ∨ evt.phase = "end" := by
      rcases hevt : obj.evt with _ | e
      · rw [objToEvent, hevt] at hobj; exact absurd hobj (by simp)
      · simp only [objToEvent, hevt] at hobj
        split at hobj
        · exact absurd hobj (by simp)
        · split at hobj
          · exact absurd hobj (by simp)
          · injection hobj with h
            rw [← h]
            by_cases hb : e.ph = "b" <;> simp [hb]
    refine ⟨hphase, fun tl st => ?_⟩
    simp only [handleEvent]
    split
    · rfl
    · rcases hphase with hp | hp <;> rw [hp] <;> rfl
  · intro tl st evt h1 h2 hfilter
    simp only [handleEvent]
    have hbool : timelineSkips tl evt = false := by
      rcases htl : tl with _ | t
      · rfl
      · simp [timelineSkips, hfilter t htl]
    rw [if_neg (by simp [hbool])]

/-- Witness for C9: a normalizer-produced begin event dispatches
successfully, and a handcrafted event with phase `"bogus"` hits the fatal
branch. -/
theorem c9_phase_dispatch_total_witness :
    isOk (handleEvent none CState.init
        (some ⟨"h1", 100, "begin", "r1", "vmapi"⟩)) = true ∧
    handleEvent none CState.init (some ⟨"h", 1, "bogus", "r", "x"⟩) =
      Except.error ("Unhandled phase: " ++ "bogus") := by
  constructor
  · exact (c9_phase_dispatch_total.1
      ⟨some ⟨"b", "vmapi", none, none⟩, some "r1", "vmapi", "h1", none, 100⟩
      ⟨"h1", 100, "begin", "r1", "vmapi"⟩ (by decide)).2 none CState.init
  · exact c9_phase_dispatch_total.2 none CState.init
      ⟨"h", 1, "bogus", "r", "x"⟩ (by decide) (by decide) (fun t h => nomatch h)

/-! ## Claim C4 -/

theorem bucketLoop_gt (d : Int) (b : Nat) : d < 2 ^ bucketLoop d b := by
  induction b using bucketLoop.induct (d := d) with
  | case1 x h ih =>
    rw [bucketLoop, if_pos h]
    exact ih
  | case2 x h =>
    rw [bucketLoop, if_neg h]
    omega

theorem bucketLoop_le (d : Int) (k : Nat) (h : d < 2 ^ k) (b : Nat) (hb : b ≤ k) :
    bucketLoop d b ≤ k := by
  induction b using bucketLoop.induct (d := d) with
  | case1 x hc ih =>
    rw [bucketLoop, if_pos hc]
    refine ih ?_
    rcases Nat.lt_or_ge x k with hlt | hge
    · omega
    · exfalso
      have hpow : (2:Int) ^ k ≤ 2 ^ x := pow_le_pow_right₀ (by norm_num) hge
      omega
  | case2 x hc =>
    rw [bucketLoop, if_neg hc]
    exact hb

/-- The loop exits at the first exponent whose power exceeds the value. -/
theorem bucketExp_gt (d : Int) : d < 2 ^ bucketExp d := bucketLoop_gt d 0

/-- The loop exit is the least such exponent. -/
theorem bucketExp_le (d : Int) (k : Nat) (h : d < 2 ^ k) : bucketExp d ≤ k :=
  bucketLoop_le d k h 0 (Nat.zero_le k)

theorem bucketExp_eq (d : Int) (k : Nat) (hgt : d < 2 ^ k)
    (hge : ∀ j : Nat, j < k → (2:Int) ^ j ≤ d) : bucketExp d = k := by
  have h1 := bucketExp_le d k hgt
  have h2 := bucketExp_gt d
  rcases Nat.lt_or_ge (bucketExp d) k with hlt | hge2
  · exfalso
    have := hge (bucketExp d) hlt
    omega
  · omega

theorem bucketExp_five : bucketExp 5 = 3 := by
  refine bucketExp_eq 5 3 (by norm_num) ?_
  intro j hj
  interval_cases j <;> norm_num

theorem bucketExp_eight : bucketExp 8 = 4 := by
  refine bucketExp_eq 8 4 (by norm_num) ?_
  intro j hj
  interval_cases j <;> norm_num

/-- How many values of `data` fall in the bucket with exponent `e`. -/
def bucketCount (data : List Int) (e : Int) : Nat :=
  (data.filter (fun d => ((bucketExp d : Int) == e))).length

theorem bucketCount_append_self (p : List Int) (d : Int) :
    bucketCount (p ++ [d]) (bucketExp d : Int) = bucketCount p (bucketExp d : Int) + 1 := by
  simp [bucketCount, List.filter_append]

theorem bucketCount_append_ne (p : List Int) (d : Int) (e : Int)
    (h : (bucketExp d : Int) ≠ e) :
    bucketCount (p ++ [d]) e = bucketCount p e := by
  simp [bucketCount, List.filter_append, h]

theorem bucketCount_pos (data : List Int) (e : Int) (h : bucketCount data e ≠ 0) :
    ∃ d ∈ data, (bucketExp d : Int) = e := by
  have hpos := Nat.pos_of_ne_zero h
  rw [bucketCount, List.length_pos] at hpos
  obtain ⟨x, hx⟩ := List.exists_mem_of_ne_nil _ hpos
  rw [List.mem_filter] at hx
  exact ⟨x, hx.1, by simpa using hx.2⟩

/-- The invariant of the counting pass of `powerOfTwoBuckets` after having
consumed the prefix `p` of the data. -/
def BucketInv (p : List Int) (acc : BucketAcc) : Prop :=
  (∀ e : Int, jsGet acc.counts e =
      if bucketCount p e = 0 then none else some (bucketCount p e)) ∧
  (acc.minExp = none ↔ p = []) ∧
  (acc.maxExp = none ↔ p = []) ∧
  (∀ m, acc.minExp = some m → (∃ d ∈ p, bucketExp d = m) ∧ ∀ d ∈ p, m ≤ bucketExp d) ∧
  (∀ m, acc.maxExp = some m → (∃ d ∈ p, bucketExp d = m) ∧ ∀ d ∈ p, bucketExp d ≤ m)

theorem bucketStep_inv (p : List Int) (acc : BucketAcc) (d : Int)
    (h : BucketInv p acc) : BucketInv (p ++ [d]) (bucketStep acc d) := by
  obtain ⟨hc, hminn, hmaxn, hmin, hmax⟩ := h
  refine ⟨?_, ?_, ?_, ?_, ?_⟩
  · intro e
    by_cases he : e = (bucketExp d : Int)
    · subst he
      rw [bucketStep]
      simp only
      rw [jsGet_jsSet_self, bucketCount_append_self, hc]
      by_cases h0 : bucketCount p (bucketExp d : Int) = 0 <;> simp [h0]
    · rw [bucketStep]
      simp only
      rw [jsGet_jsSet_ne _ _ _ _ he, bucketCount_append_ne p d e (fun hh => he hh.symm)]
      exact hc e
  · rw [bucketStep]
    rcases hm : acc.minExp with _ | m <;> simp [hm]
    split <;> simp
  · rw [bucketStep]
    rcases hm : acc.maxExp with _ | m <;> simp [hm]
    split <;> simp
  · intro m hm
    rw [bucketStep] at hm
    simp only at hm
    rcases hmm : acc.minExp with _ | m0
    · rw [hmm] at hm
      simp at hm
      subst hm
      have hp : p = [] := hminn.mp hmm
      subst hp
      exact ⟨⟨d, by simp⟩, by simp⟩
    · rw [hmm] at hm
      have hm2 : (if bucketExp d < m0 then some (bucketExp d) else some m0) = some m := hm
      obtain ⟨⟨d0, hd0, hd0e⟩, hall⟩ := hmin m0 hmm
      by_cases hlt : bucketExp d < m0
      · rw [if_pos hlt] at hm2
        injection hm2 with hm
        subst hm
        refine ⟨⟨d, by simp⟩, ?_⟩
        intro x hx
        rcases List.mem_append.mp hx with hx | hx
        · exact le_of_lt (lt_of_lt_of_le hlt (hall x hx))
        · simp at hx
          subst hx
          rfl
      · rw [if_neg hlt] at hm2
        injection hm2 with hm
        subst hm
        refine ⟨⟨d0, by simp [hd0], hd0e⟩, ?_⟩
        intro x hx
        rcases List.mem_append.mp hx with hx | hx
        · exact hall x hx
        · simp at hx
          subst hx
          omega
  · intro m hm
    rw [bucketStep] at hm
    simp only at hm
    rcases hmm : acc.maxExp with _ | m0
    · rw [hmm] at hm
      simp at hm
      subst hm
      have hp : p = [] := hmaxn.mp hmm
      subst hp
      exact ⟨⟨d, by simp⟩, by simp⟩
    · rw [hmm] at hm
      have hm2 : (if bucketExp d > m0 then some (bucketExp d) else some m0) = some m := hm
      obtain ⟨⟨d0, hd0, hd0e⟩, hall⟩ := hmax m0 hmm
      by_cases hlt : bucketExp d > m0
      · rw [if_pos hlt] at hm2
        injection hm2 with hm
        subst hm
        refine ⟨⟨d, by simp⟩, ?_⟩
        intro x hx
        rcases List.mem_append.mp hx with hx | hx
        · exact le_of_lt (lt_of_le_of_lt (hall x hx) hlt)
        · simp at hx
          subst hx
          rfl
      · rw [if_neg hlt] at hm2
        injection hm2 with hm
        subst hm
        refine ⟨⟨d0, by simp [hd0], hd0e⟩, ?_⟩
        intro x hx
        rcases List.mem_append.mp hx with hx | hx
        · exact hall x hx
        · simp at hx
          subst hx
          omega

theorem foldl_bucketStep_inv (l p : List Int) (acc : BucketAcc)
    (h : BucketInv p acc) : BucketInv (p ++ l) (l.foldl bucketStep acc) := by
  induction l generalizing p acc with
  | nil => simpa using h
  | cons d rest ih =>
    have h1 := bucketStep_inv p acc d h
    have h2 := ih (p ++ [d]) (bucketStep acc d) h1
    simpa using h2

theorem bucketInv_init : BucketInv [] ⟨0, [], none, none⟩ := by
  refine ⟨fun e => by simp [jsGet, bucketCount], by simp, by simp, ?_, ?_⟩ <;>
    intro m hm <;> simp at hm

theorem mem_rangeInts (lo hi e : Int) : e ∈ rangeInts lo hi ↔ lo ≤ e ∧ e ≤ hi := by
  constructor
  · intro h
    rw [rangeInts, List.mem_map] at h
    obtain ⟨i, hi2, he⟩ := h
    rw [List.mem_range] at hi2
    have he2 : lo + (i : Int) = e := he
    omega
  · intro h
    rw [rangeInts, List.mem_map]
    refine ⟨(e - lo).toNat, ?_, ?_⟩
    · rw [List.mem_range]
      omega
    · show lo + ((e - lo).toNat : Int) = e
      omega

theorem jsGet_foldl_fillStep (es : List Int) (cs : List (Int × Nat)) (e : Int) :
    jsGet (es.foldl fillStep cs) e =
      match jsGet cs e with
      | some c => some c
      | none => if e ∈ es then some 0 else none := by
  induction es generalizing cs with
  | nil =>
    rcases h : jsGet cs e with _ | c <;> simp [h]
  | cons a rest ih =>
    simp only [List.foldl_cons]
    rw [ih]
    rcases hcs : jsGet cs e with _ | c
    · by_cases hae : e = a
      · subst hae
        rcases hca : jsGet cs e with _ | c2
        · have : jsGet (fillStep cs e) e = some 0 := by
            rw [fillStep, if_pos (by simp [hca])]
            exact jsGet_jsSet_self cs e 0
          simp [this]
        · rw [hca] at hcs
          exact absurd hcs (by simp)
      · have : jsGet (fillStep cs a) e = jsGet cs e := by
          rw [fillStep]
          split
          · exact jsGet_jsSet_ne cs a e 0 hae
          · rfl
        rw [this, hcs]
        simp [hae]
    · have : jsGet (fillStep cs a) e = some c := by
        rw [fillStep]
        split
        · by_cases hae : e = a
          · subst hae
            simp_all
          · rw [jsGet_jsSet_ne cs a e 0 hae]
            exact hcs
        · exact hcs
      simp [this]

/-- C4 (amended: the code's bucket for a value `v` is `2 ^ k` for the
smallest `k` with `2 ^ k > v`, strictly — so a value of 5 falls into bucket
8 but a value of 8 falls into bucket 16): the histogram counts each value
in the bucket whose exponent is the least `k` with `v < 2 ^ k`, and the
produced bucket table has exactly the keys from half the minimum occupied
bucket (exponent `minE - 1`) to double the maximum occupied bucket
(exponent `maxE + 1`), the unoccupied ones with count 0. -/
theorem c4_power_of_two_buckets :
    (∀ d : Int, d < 2 ^ bucketExp d ∧ ∀ k : Nat, d < 2 ^ k → bucketExp d ≤ k) ∧
    bucketExp 5 = 3 ∧ bucketExp 8 = 4 ∧
    (∀ (data : List Int) (minE maxE : Nat),
      (∃ d ∈ data, bucketExp d = minE) → (∀ d ∈ data, minE ≤ bucketExp d) →
      (∃ d ∈ data, bucketExp d = maxE) → (∀ d ∈ data, bucketExp d ≤ maxE) →
      ∀ e : Int,
        jsGet (powerOfTwoBuckets data).counts e =
          if (minE : Int) - 1 ≤ e ∧ e ≤ (maxE : Int) + 1
          then some (bucketCount data e) else none) := by
  refine ⟨fun d => ⟨bucketExp_gt d, fun k h => bucketExp_le d k h⟩,
    bucketExp_five, bucketExp_eight, ?_⟩
  intro data minE maxE hminmem hminle hmaxmem hmaxle e
  have hinv : BucketInv data (data.foldl bucketStep ⟨0, [], none, none⟩) := by
    have h := foldl_bucketStep_inv data [] ⟨0, [], none, none⟩ bucketInv_init
    simpa using h
  obtain ⟨hc, hminn, hmaxn, hmin, hmax⟩ := hinv
  have hdata_ne : data ≠ [] := by
    obtain ⟨d, hd, _⟩ := hminmem
    exact List.ne_nil_of_mem hd
  obtain ⟨mv, hmv⟩ : ∃ mv, (data.foldl bucketStep ⟨0, [], none, none⟩).minExp = some mv := by
    rcases hh : (data.foldl bucketStep ⟨0, [], none, none⟩).minExp with _ | mv
    · exact absurd (hminn.mp hh) hdata_ne
    · exact ⟨mv, rfl⟩
  obtain ⟨xv, hxv⟩ : ∃ xv, (data.foldl bucketStep ⟨0, [], none, none⟩).maxExp = some xv := by
    rcases hh : (data.foldl bucketStep ⟨0, [], none, none⟩).maxExp with _ | xv
    · exact absurd (hmaxn.mp hh) hdata_ne
    · exact ⟨xv, rfl⟩
  have hmveq : mv = minE := by
    obtain ⟨⟨d0, hd0, hd0e⟩, hall⟩ := hmin mv hmv
    obtain ⟨d1, hd1, hd1e⟩ := hminmem
    have h1 : minE ≤ bucketExp d0 := hminle d0 hd0
    have h2 : mv ≤ bucketExp d1 := hall d1 hd1
    omega
  have hxveq : xv = maxE := by
    obtain ⟨⟨d0, hd0, hd0e⟩, hall⟩ := hmax xv hxv
    obtain ⟨d1, hd1, hd1e⟩ := hmaxmem
    have h1 : bucketExp d0 ≤ maxE := hmaxle d0 hd0
    have h2 : bucketExp d1 ≤ xv := hall d1 hd1
    omega
  rw [hmveq] at hmv
  rw [hxveq] at hxv
  rw [powerOfTwoBuckets]
  simp only [hmv, hxv]
  rw [jsGet_foldl_fillStep]
  rw [hc e]
  by_cases h0 : bucketCount data e = 0
  · rw [if_pos h0]
    simp only [mem_rangeInts]
    by_cases hr : (minE : Int) - 1 ≤ e ∧ e ≤ (maxE : Int) + 1
    · rw [if_pos hr, if_pos hr, h0]
    · rw [if_neg hr, if_neg hr]
  · rw [if_neg h0]
    simp only
    obtain ⟨d, hd, hde⟩ := bucketCount_pos data e h0
    have h1 : minE ≤ bucketExp d := hminle d hd
    have h2 : bucketExp d ≤ maxE := hmaxle d hd
    have hr : (minE : Int) - 1 ≤ e ∧ e ≤ (maxE : Int) + 1 := by omega
    rw [if_pos hr]

/-- C4 counterexample: the claim's rule ("smallest `2 ^ k ≥ v`", so value 8
in bucket 8) fails — for `data = [8]` the bucket at key `8` (exponent 3)
has count 0 and the bucket at key `16` (exponent 4) has count 1. -/
theorem c4_counterexample :
    jsGet (powerOfTwoBuckets [8]).counts 3 = some 0 ∧
    jsGet (powerOfTwoBuckets [8]).counts 4 = some 1 ∧
    (2 : Int) ^ 3 = 8 ∧ (2 : Int) ^ 4 = 16 := by
  have h : powerOfTwoBuckets [8] =
      ⟨1, [((4 : Int), 1), ((3 : Int), 0), ((5 : Int), 0)]⟩ := by
    rw [powerOfTwoBuckets]
    simp only [List.foldl_cons, List.foldl_nil, bucketStep, bucketExp_eight]
    norm_num [jsGet, jsSet, rangeInts, fillStep]
    decide
  rw [h]
  refine ⟨by decide, by decide, by norm_num, by norm_num⟩

/-- Witness for C4 (amended) at `data = [8]`: the occupied bucket is
exponent 4 (JS key 16), the filled range covers exponents 3..5, and key 32
(exponent 5) is present with count 0 while exponent 6 is absent. -/
theorem c4_power_of_two_buckets_witness :
    jsGet (powerOfTwoBuckets [8]).counts 5 = some 0 ∧
    jsGet (powerOfTwoBuckets [8]).counts 6 = none := by
  have hmem : ∃ d ∈ [(8 : Int)], bucketExp d = 4 := ⟨8, by simp, bucketExp_eight⟩
  have hle : ∀ d ∈ [(8 : Int)], 4 ≤ bucketExp d := by
    intro d hd
    simp at hd
    subst hd
    rw [bucketExp_eight]
  have hge : ∀ d ∈ [(8 : Int)], bucketExp d ≤ 4 := by
    intro d hd
    simp at hd
    subst hd
    rw [bucketExp_eight]
  have h := c4_power_of_two_buckets.2.2.2 [8] 4 4 hmem hle hmem hge
  constructor
  · have h5 := h 5
    rw [if_pos (by norm_num)] at h5
    rw [h5]
    have : bucketCount [8] 5 = 0 := by
      simp [bucketCount, bucketExp_eight]
    rw [this]
  · have h6 := h 6
    rw [if_neg (by norm_num)] at h6
    exact h6

/-! ## Claim C5 -/

/-- C5 counterexample: the claim says the median is taken from the values
in ascending *numeric* order, but `values.sort()` is JavaScript's default
sort, which compares decimal string representations: for values `[9, 10]`
the code sorts them `[10, 9]` (since `"10" < "9"`) and reports median 9,
while the numeric-order rule of the claim would report 10. -/
theorem c5_counterexample :
    (reportEvtStats ⟨0, 0, 0, [9, 10]⟩).1 = some 9 ∧
    (List.insertionSort (fun a b : Int => a ≤ b) [9, 10]).get?
      (([(9 : Int), 10].length + 1) / 2) = some 10 ∧
    (9 : Int) ≠ 10 := by
  refine ⟨by decide, by decide, by decide⟩

/-- C5 (amended: the values are sorted in ascending *lexicographic order of
their decimal string representations* — JavaScript's comparator-less
`sort()` — not numeric order): the reported median is the element at index
`floor((n + 1) / 2)` of that ordering (JS `undefined`, here `none`, when
the index is out of range); for values `[10, 20, 30]`, where the two orders
agree, the median is `values[2] = 30`. -/
theorem c5_report_median :
    (∀ evt : ReportEvt, ∃ l : List Int,
        List.Perm l evt.values ∧ l.Sorted valueLe ∧
        (reportEvtStats evt).1 = l.get? ((evt.values.length + 1) / 2)) ∧
    (reportEvtStats ⟨0, 0, 0, [10, 20, 30]⟩).1 = some 30 := by
  constructor
  · intro evt
    exact ⟨jsDefaultSort evt.values,
      List.perm_insertionSort valueLe evt.values,
      List.sorted_insertionSort valueLe evt.values, rfl⟩
  · decide

/-! ## Claim C6 -/

theorem mergeDatapoint_keeps (first_id : String) (data : List (String × ReportEntry))
    (kv : String × DataPoint) (e : ReportEntry) (h : jsGet data first_id = some e) :
    ∃ e2, jsGet (mergeDatapoint first_id data kv) first_id = some e2 ∧
      e2.count = e.count := by
  simp only [mergeDatapoint, h, Option.getD_some]
  refine ⟨_, jsGet_jsSet_self _ _ _, ?_⟩
  split <;> split <;> rfl

theorem foldl_mergeDatapoint_keeps (first_id : String)
    (l : List (String × DataPoint)) (data : List (String × ReportEntry))
    (e : ReportEntry) (h : jsGet data first_id = some e) :
    ∃ e2, jsGet (l.foldl (mergeDatapoint first_id) data) first_id = some e2 ∧
      e2.count = e.count := by
  induction l generalizing data e with
  | nil => exact ⟨e, h, rfl⟩
  | cons kv rest ih =>
    obtain ⟨e1, h1, hc1⟩ := mergeDatapoint_keeps first_id data kv e h
    obtain ⟨e2, h2, hc2⟩ := ih _ _ h1
    exact ⟨e2, h2, by rw [hc2, hc1]⟩

/-- C6 counterexample: the report sort comparator is `a.start - b.start`
with no identity tie-break.  For two spans with equal start 5, identities
`"bb"` then `"a"`, the claim's tie-break (shorter identity first) picks
`"a"` as top-level, but the code keeps the list order and buckets the
request under `"bb"`; no `"a"` bucket exists. -/
theorem c6_counterexample :
    (jsGet (reportProcessRequest ⟨none, none⟩ "r"
        [⟨7, "h", "bb", 5⟩, ⟨3, "h", "a", 5⟩] ⟨[], [], []⟩).data "bb").isSome = true ∧
    jsGet (reportProcessRequest ⟨none, none⟩ "r"
        [⟨7, "h", "bb", 5⟩, ⟨3, "h", "a", 5⟩] ⟨[], [], []⟩).data "a" = none := by
  refine ⟨by decide, by decide⟩

/-- C6 (amended: the sort is by start time ascending with NO identity
tie-break — the comparator is `a.start - b.start` only, ties keeping their
previous relative order — and the bucket key is the first span's identity
with a trailing `.digits` suffix trimmed): the sorted list is a
start-ordered permutation of the request's spans, the chosen top-level span
has minimal start, and the report data gains (or increments) the bucket
keyed by its trimmed identity. -/
theorem c6_top_level_selection (opts : ReportOpts) (req_id : String)
    (events : List Span) (g : ReportGlobals) (first : Span) (rest : List Span)
    (hsorted : List.insertionSort startLe events = first :: rest)
    (htime : ¬ (jsTruthyNum opts.time = true ∧ first.elapsed < opts.time.getD 0))
    (hevents : ∀ f, opts.events = some f → f (trimIdSeq first.id) = true) :
    List.Perm (List.insertionSort startLe events) events ∧
    (List.insertionSort startLe events).Sorted startLe ∧
    (∀ s ∈ events, first.start ≤ s.start) ∧
    ∃ entry : ReportEntry,
      jsGet (reportProcessRequest opts req_id events g).data (trimIdSeq first.id) =
        some entry ∧
      entry.count = ((jsGet g.data (trimIdSeq first.id)).getD ⟨0, [], 0, 0⟩).count + 1 := by
  have hperm := List.perm_insertionSort startLe events
  have hsort := List.sorted_insertionSort startLe events
  refine ⟨hperm, hsort, ?_, ?_⟩
  · intro s hs
    have hs2 : s ∈ List.insertionSort startLe events := by
      rw [List.mem_insertionSort]
      exact hs
    rw [hsorted] at hs2
    rcases List.mem_cons.mp hs2 with rfl | hs2
    · exact le_refl _
    · have hsort2 := hsort
      rw [hsorted] at hsort2
      exact List.rel_of_sorted_cons hsort2 s hs2
  · rw [reportProcessRequest]
    simp only [hsorted]
    rw [if_neg htime]
    have hb : (match opts.events with
        | some f => !f (trimIdSeq first.id)
        | none => false : Bool) = false := by
      rcases hoe : opts.events with _ | f
      · rfl
      · simp [hevents f hoe]
    rw [if_neg (by simp [hb])]
    simp only
    obtain ⟨e2, hget, hcount⟩ := foldl_mergeDatapoint_keeps (trimIdSeq first.id)
      ((List.insertionSort startLe events).foldl
        (recordOne req_id (first.start + first.elapsed))
        ([], g.insaneReqs, g.lateReqs)).1
      (jsSet g.data (trimIdSeq first.id) (bumpEntry g.data (trimIdSeq first.id) first.elapsed))
      (bumpEntry g.data (trimIdSeq first.id) first.elapsed)
      (jsGet_jsSet_self _ _ _)
    refine ⟨e2, ?_, ?_⟩
    · rw [← hsorted]
      exact hget
    · rw [hcount, bumpEntry]
      simp only
      split <;> split <;> rfl

/-- Witness for C6 (amended) on a two-span request with distinct starts. -/
theorem c6_top_level_selection_witness :
    List.Perm (List.insertionSort startLe
      [⟨4, "h", "top", 1⟩, ⟨2, "h", "child", 3⟩])
      [⟨4, "h", "top", 1⟩, ⟨2, "h", "child", 3⟩] ∧
    (jsGet (reportProcessRequest ⟨none, none⟩ "r"
        [⟨4, "h", "top", 1⟩, ⟨2, "h", "child", 3⟩] ⟨[], [], []⟩).data "top").isSome = true := by
  have h := c6_top_level_selection ⟨none, none⟩ "r"
    [⟨4, "h", "top", 1⟩, ⟨2, "h", "child", 3⟩] ⟨[], [], []⟩
    ⟨4, "h", "top", 1⟩ [⟨2, "h", "child", 3⟩]
    (by decide) (by decide) (fun f hf => nomatch hf)
  obtain ⟨hp, _, _, entry, hget, _⟩ := h
  refine ⟨hp, ?_⟩
  have : jsGet (reportProcessRequest ⟨none, none⟩ "r"
      [⟨4, "h", "top", 1⟩, ⟨2, "h", "child", 3⟩] ⟨[], [], []⟩).data
      (trimIdSeq (⟨4, "h", "top", 1⟩ : Span).id) = some entry := hget
  rw [show trimIdSeq (⟨4, "h", "top", 1⟩ : Span).id = "top" from by decide] at this
  rw [this]
  rfl

/-! ## Claim C7 -/

/-- Is this printed line an END line? -/
def isStopLine : TLine → Bool
  | TLine.stop _ _ _ _ _ => true
  | TLine.start _ _ _ _ => false

/-- The suffixes of the START lines of identity `i`, in print order. -/
def startSuffixes (out : List TLine) (i : String) : List String :=
  out.filterMap (fun t =>
    match t with
    | TLine.start id sfx _ _ => if id = i then some sfx else none
    | TLine.stop _ _ _ _ _ => none)

/-- The suffix sequence the code produces for successive STARTs of one
identity: nothing on the first, `" [k]"` on the `(k+1)`-th. -/
def suffixSeq (n : Nat) : List String :=
  (List.range n).map (fun k =>
    if k = 0 then "" else " [" ++ toString (k : Int) ++ "]")

theorem startSuffixes_append (out1 out2 : List TLine) (i : String) :
    startSuffixes (out1 ++ out2) i = startSuffixes out1 i ++ startSuffixes out2 i := by
  simp [startSuffixes]

theorem startSuffixes_endLines (es : List OpenEnd) (i : String) :
    startSuffixes (es.map endLine) i = [] := by
  induction es with
  | nil => rfl
  | cons e rest _ => simp [startSuffixes, endLine]

theorem suffixSeq_succ (n : Nat) :
    suffixSeq (n + 1) =
      suffixSeq n ++ [if n = 0 then "" else " [" ++ toString (n : Int) ++ "]"] := by
  simp [suffixSeq, List.range_succ]

theorem timelineLoop_suffixes (i : String) (l : List Span) (st : TLState) (c : Nat)
    (hout : startSuffixes st.out i = suffixSeq c)
    (hseen : (c = 0 ∧ jsGet st.seen_starts i = none) ∨
             (1 ≤ c ∧ jsGet st.seen_starts i = some ((c : Int) - 1))) :
    startSuffixes ((l.foldl timelineStep st).out) i =
      suffixSeq (c + l.countP (fun s => s.id == i)) := by
  induction l generalizing st c with
  | nil => simpa using hout
  | cons s rest ih =>
    simp only [List.foldl_cons]
    by_cases hid : s.id = i
    · subst hid
      rcases hseen with ⟨hc0, hnone⟩ | ⟨hc1, hsome⟩
      · subst hc0
        have hstep : startSuffixes ((timelineStep st s).out) s.id = suffixSeq 1 ∧
            jsGet (timelineStep st s).seen_starts s.id = some 0 := by
          rw [timelineStep]
          simp only [hnone]
          constructor
          · rw [startSuffixes_append, startSuffixes_append, hout,
              startSuffixes_endLines]
            simp [startSuffixes, suffixSeq, List.range_succ]
          · exact jsGet_jsSet_self _ _ _
        have h2 := ih (timelineStep st s) 1 hstep.1
          (Or.inr ⟨le_refl 1, by rw [hstep.2]; norm_num⟩)
        rw [h2]
        congr 1
        have : (s.id == s.id) = true := by simp
        rw [List.countP_cons, this, if_pos rfl]
        omega
      · have hstep : startSuffixes ((timelineStep st s).out) s.id =
              suffixSeq (c + 1) ∧
            jsGet (timelineStep st s).seen_starts s.id = some ((c : Int) + 1 - 1) := by
          rw [timelineStep]
          simp only [hsome]
          constructor
          · rw [startSuffixes_append, startSuffixes_append, hout,
              startSuffixes_endLines]
            rw [suffixSeq_succ]
            simp only [List.append_nil]
            congr 1
            have hc : (c : Int) - 1 + 1 = (c : Int) := by omega
            have hcne : ¬ (c = 0) := by omega
            simp [startSuffixes, hc, hcne]
          · rw [jsGet_jsSet_self]
            congr 1
            omega
        have h2 := ih (timelineStep st s) (c + 1) hstep.1
          (Or.inr ⟨by omega, by rw [hstep.2]; congr 1⟩)
        rw [h2]
        congr 1
        have : (s.id == s.id) = true := by simp
        rw [List.countP_cons, this, if_pos rfl]
        omega
    · have hstep : startSuffixes ((timelineStep st s).out) i = suffixSeq c ∧
          jsGet (timelineStep st s).seen_starts i = jsGet st.seen_starts i := by
        rw [timelineStep]
        constructor
        · rcases hg : jsGet st.seen_starts s.id with _ | n <;>
          · simp only [hg]
            rw [startSuffixes_append, startSuffixes_append, hout,
              startSuffixes_endLines]
            simp [startSuffixes, hid]
        · rcases hg : jsGet st.seen_starts s.id with _ | n <;>
          · simp only [hg]
            exact jsGet_jsSet_ne _ _ _ _ (fun hh => hid hh.symm)
      have h2 := ih (timelineStep st s) c hstep.1 (by
        rcases hseen with ⟨hc0, hnone⟩ | ⟨hc1, hsome⟩
        · exact Or.inl ⟨hc0, by rw [hstep.2]; exact hnone⟩
        · exact Or.inr ⟨hc1, by rw [hstep.2]; exact hsome⟩)
      rw [h2]
      congr 1
      have : (s.id == i) = false := by simpa using hid
      rw [List.countP_cons, this, if_neg Bool.false_ne_true]
      omega

/-- C7 counterexample: the second START of identity `a` carries the suffix
`" [1]"`, not the claimed `" [2]"` (the counter starts at 0 and is
incremented before display). -/
theorem c7_counterexample :
    outputTimeline [⟨1, "h", "a", 0⟩, ⟨1, "h", "a", 10⟩] =
      [TLine.start "a" "" 0 0, TLine.stop "a" "" 1 1 0,
       TLine.start "a" " [1]" 10 0, TLine.stop "a" " [1]" 11 1 0] ∧
    (" [1]" : String) ≠ " [2]" := by
  refine ⟨by decide, by decide⟩

/-- C7 (amended: the occurrence-index suffix counts from 1, not 2 — the
first START of an identity has no suffix and the `(k+1)`-th carries
`" [k]"`, so the second start is `[1]`, the third `[2]`, and so on):
for every request and identity, the sequence of suffixes on that identity's
START lines is exactly `"", " [1]", " [2]", …` across its number of
occurrences. -/
theorem c7_start_suffix_sequence :
    ∀ (spans : List Span) (i : String),
      startSuffixes (outputTimeline spans) i =
        suffixSeq (spans.countP (fun s => s.id == i)) := by
  intro spans i
  have h := timelineLoop_suffixes i (List.insertionSort tlSpanLe spans)
    ⟨[], 0, [], []⟩ 0 rfl (Or.inl ⟨rfl, rfl⟩)
  rw [outputTimeline]
  rw [startSuffixes_append]
  have hdr : startSuffixes ((timelineMain spans).ends.reverse.map endLine) i = [] :=
    startSuffixes_endLines _ i
  rw [hdr, List.append_nil, timelineMain]
  rw [h]
  have hcp : (List.insertionSort tlSpanLe spans).countP (fun s => s.id == i) =
      spans.countP (fun s => s.id == i) :=
    (List.perm_insertionSort tlSpanLe spans).countP_eq _
  rw [hcp]
  congr 1
  omega

/-! ## Claim C8 -/

/-- The identifying key of a pushed `ends` entry. -/
def openKey (e : OpenEnd) : Int × String × Int := (e.time, e.id, e.elapsed)

/-- The `ends` entry a span pushes, projected to its key. -/
def spanEndKey (s : Span) : Int × String × Int := (s.start + s.elapsed, s.id, s.elapsed)

theorem length_filter_split {α : Type} (l : List α) (p : α → Bool) :
    (l.filter p).length + (l.filter (fun a => !(p a))).length = l.length := by
  induction l with
  | nil => rfl
  | cons a rest ih =>
    by_cases h : p a <;> simp [List.filter, h] <;> omega

theorem endLine_filter_length (es : List OpenEnd) :
    ((es.map endLine).filter isStopLine).length = es.length := by
  induction es with
  | nil => rfl
  | cons e rest ih => simpa [endLine, isStopLine] using ih

theorem filter_stop_single_start (id sfx : String) (t lv : Int) :
    List.filter isStopLine [TLine.start id sfx t lv] = [] := rfl

theorem timelineStep_endCount (st : TLState) (s : Span) :
    ((timelineStep st s).out.filter isStopLine).length +
      (timelineStep st s).ends.length =
    (st.out.filter isStopLine).length + st.ends.length + 1 := by
  have hsplit := length_filter_split st.ends (fun e => decide (s.start ≥ e.time))
  rw [timelineStep]
  rcases hg : jsGet st.seen_starts s.id with _ | n <;>
  · simp only [hg]
    rw [List.filter_append, List.filter_append, filter_stop_single_start]
    rw [List.length_append, List.length_append, List.length_append]
    rw [endLine_filter_length, List.length_insertionSort]
    simp only [List.length_nil, List.length_cons]
    omega

theorem timelineLoop_endCount (l : List Span) (st : TLState) :
    ((l.foldl timelineStep st).out.filter isStopLine).length +
      (l.foldl timelineStep st).ends.length =
    (st.out.filter isStopLine).length + st.ends.length + l.length := by
  induction l generalizing st with
  | nil => simp
  | cons s rest ih =>
    simp only [List.foldl_cons, List.length_cons]
    rw [ih (timelineStep st s), timelineStep_endCount]
    omega

theorem timelineStep_sublist (st : TLState) (s : Span) :
    List.Sublist ((timelineStep st s).ends.map openKey)
      (st.ends.map openKey ++ [spanEndKey s]) := by
  rw [timelineStep]
  rcases hg : jsGet st.seen_starts s.id with _ | n <;>
  · simp only [hg, List.map_append]
    refine List.Sublist.append ?_ ?_
    · exact List.Sublist.map openKey (List.filter_sublist st.ends)
    · simp [openKey, spanEndKey]

theorem timelineLoop_sublist (l : List Span) (st : TLState) :
    List.Sublist ((l.foldl timelineStep st).ends.map openKey)
      (st.ends.map openKey ++ l.map spanEndKey) := by
  induction l generalizing st with
  | nil => simp
  | cons s rest ih =>
    simp only [List.foldl_cons, List.map_cons]
    have h1 := ih (timelineStep st s)
    have h2 := timelineStep_sublist st s
    have h3 : List.Sublist ((timelineStep st s).ends.map openKey ++ rest.map spanEndKey)
        ((st.ends.map openKey ++ [spanEndKey s]) ++ rest.map spanEndKey) :=
      h2.append_right _
    have h4 := h1.trans h3
    simpa using h4

/-- C8 counterexample: for the crossing spans `a` (start 0, end 100) and
`bb` (start 50, end 250), both still open at the end, the drained END lines
print `bb` (end 250) before `a` (end 100) — end times `[250, 100]`, not
ascending. -/
theorem c8_counterexample :
    outputTimeline [⟨100, "h", "a", 0⟩, ⟨200, "h", "bb", 50⟩] =
      [TLine.start "a" "" 0 0, TLine.start "bb" "" 50 1,
       TLine.stop "bb" "" 250 200 1, TLine.stop "a" "" 100 100 0] ∧
    (timelineMain [⟨100, "h", "a", 0⟩, ⟨200, "h", "bb", 50⟩]).ends.reverse.map
        (fun e => e.time) = [250, 100] ∧
    ¬ ((250 : Int) ≤ 100) := by
  refine ⟨by decide, by decide, by decide⟩

/-- C8 (amended: after the loop, every span still open on the stack is
printed as an END line, and these final END lines appear in *reverse push
(stack-pop) order* — the remaining open entries are an order-preserving
subsequence of the (start, identity-length)-sorted span sequence, printed
reversed — which coincides with ascending end-time order only for nested
spans): the timeline output is the loop output followed by the reversed
`ends` stack as END lines, the whole output contains exactly one END line
per span, and the remaining stack is a subsequence of the sorted spans'
end entries. -/
theorem c8_drain_all_lifo :
    ∀ spans : List Span,
      outputTimeline spans =
        (timelineMain spans).out ++ (timelineMain spans).ends.reverse.map endLine ∧
      ((outputTimeline spans).filter isStopLine).length = spans.length ∧
      List.Sublist ((timelineMain spans).ends.map openKey)
        ((List.insertionSort tlSpanLe spans).map spanEndKey) := by
  intro spans
  refine ⟨rfl, ?_, ?_⟩
  · rw [outputTimeline]
    simp only [List.filter_append, List.length_append]
    have h1 : ∀ es : List OpenEnd,
        ((es.map endLine).filter isStopLine).length = es.length := by
      intro es
      induction es with
      | nil => rfl
      | cons e rest ih => simpa [endLine, isStopLine] using ih
    rw [h1]
    have h2 := timelineLoop_endCount (List.insertionSort tlSpanLe spans) ⟨[], 0, [], []⟩
    rw [timelineMain]
    simp only [List.length_reverse]
    have h3 : (List.insertionSort tlSpanLe spans).length = spans.length :=
      List.length_insertionSort _ _
    simp at h2
    omega
  · have h := timelineLoop_sublist (List.insertionSort tlSpanLe spans) ⟨[], 0, [], []⟩
    rw [timelineMain]
    simpa using h

end Evttool
